import Mathlib

/-!
Verification of the deal-classification and aggregation engine of
`slingshot-stats` (`main.go`, command `rollup`).

The engine is shallowly embedded: the Go loop body of `rollup` becomes the
pure step function `processDeal` over an explicit `RollupState`; the
liveness filter and the two `sort.Slice` calls become `List.filter` and
`List.insertionSort`; Go maps become association lists (`List (κ × ν)`)
whose keys stay unique because every update goes through
`mapInsert`/`bump`/`addTo`/`setAdd`.  `sort.Slice` in Go guarantees only
that the result is a permutation of the input that is sorted with respect
to the comparator (it is explicitly *not* stable); that contract is
captured by the relation `sortSliceSpec`, and `List.insertionSort` — one
admissible implementation — is used for the executable pipeline.
External collaborators (the wallet resolver `StateAccountKey` plus its
cache, and the cid parser applied to deal labels) are modelled as function
fields of `Env`; chain height, the phase-start epoch (flag-overridable in
the source) and the recovery-start epoch are `Env` fields as well.
-/

namespace SlingshotStats

/-- `builtin.EpochsInDay` from specs-actors: 86400 seconds per day divided
by the 30-second epoch duration. -/
def EpochsInDay : Int := 2880

/-- The hard-coded wallet of the "TEMP WORKAROUND" in `rollup`
(main.go line 345): its deals are dropped from totals once their sector
started at or after `recoveryStart`. -/
def excludedWallet : String := "f17ia7m5mvizrdug3sqtevqw3tifiqvxqr3kdaeuq"

/-! ### Association-list machinery (Go maps) -/

/-- Go map read `m[k]` returning presence: value of the first entry whose
key is `k`. -/
def mapLookup [DecidableEq α] (m : List (α × β)) (k : α) : Option β :=
  match m with
  | [] => none
  | (k0, v) :: rest => if k0 = k then some v else mapLookup rest k

/-- Go map read with a default for a missing key (Go returns the zero
value of the element type). -/
def lookupD [DecidableEq α] (m : List (α × β)) (k : α) (d : β) : β :=
  (mapLookup m k).getD d

/-- Go map write `m[k] = v`: overwrite the entry if the key is present,
otherwise add it. -/
def mapInsert [DecidableEq α] (m : List (α × β)) (k : α) (v : β) : List (α × β) :=
  match m with
  | [] => [(k, v)]
  | (k0, w) :: rest => if k0 = k then (k0, v) :: rest else (k0, w) :: mapInsert rest k v

/-- Go counter increment `m[k]++` on a `map[κ]int` (missing key counts
as 0). -/
def bump [DecidableEq α] (m : List (α × Nat)) (k : α) : List (α × Nat) :=
  match m with
  | [] => [(k, 1)]
  | (k0, v) :: rest => if k0 = k then (k0, v + 1) :: rest else (k0, v) :: bump rest k

/-- Go accumulation `m[k] += v` on a `map[κ]int64`. -/
def addTo [DecidableEq α] (m : List (α × Int)) (k : α) (v : Int) : List (α × Int) :=
  match m with
  | [] => [(k, v)]
  | (k0, w) :: rest => if k0 = k then (k0, w + v) :: rest else (k0, w) :: addTo rest k v

/-- Go set insert `m[k] = true` on a `map[κ]bool` used as a set. -/
def setAdd [DecidableEq α] (s : List α) (k : α) : List α :=
  if k ∈ s then s else s ++ [k]

/-! ### `strconv.ParseInt(s, 10, 64)` with the error discarded

`rollup` sorts deal ids with `didi, _ := strconv.ParseInt(...)`.
`ParseInt` strips an optional sign and runs `ParseUint`, which scans the
characters left to right: a non-digit is an immediate syntax error
(value 0 once the error is discarded), but if the accumulator overflows
while consuming a digit, `ParseUint` stops *at that digit* and reports
`maxVal` with `ErrRange` — without looking at any later character.
`ParseInt` then clamps any value at or beyond the `int64` bounds to
`MaxInt64` / `MinInt64`.  Hence "99999999999999999999x" (twenty nines,
then an invalid character) parses to `MaxInt64`, while
"9999999999999999999x" (nineteen nines — no overflow yet when the "x"
is reached) parses to 0. -/

def int64Max : Int := 9223372036854775807
def int64Min : Int := -9223372036854775808

/-- Largest `uint64` value — `ParseUint`'s `maxVal` for bit size 64. -/
def uint64Max : Nat := 18446744073709551615

/-- `ParseUint`'s overflow cutoff for base 10 and bit size 64,
`maxVal/10 + 1`: once the accumulator reaches it, the next digit cannot
be consumed without overflowing. -/
def parseUintCutoff : Nat := 1844674407370955162

/-- Outcome of the `strconv.ParseUint(s, 10, 64)` scan: a syntax error
(the discarded-error value is 0), a range error (the scan stopped at an
overflowing digit and reported `maxVal`), or the parsed value. -/
inductive ParseOutcome where
  | syntaxFail
  | rangeFail
  | val (n : Nat)

/-- The scanning loop of `strconv.ParseUint(s, 10, 64)`.  Per character,
in source order: the digit check (a non-digit is an immediate syntax
error), the `n >= cutoff` check and the `n1 > maxVal` check (either
overflow ends the scan at once with a range error, ignoring all later
characters), then the accumulator step. -/
def parseUintLoop : Nat → List Char → ParseOutcome
  | n, [] => ParseOutcome.val n
  | n, c :: rest =>
    if c.isDigit then
      if n ≥ parseUintCutoff then ParseOutcome.rangeFail
      else if n * 10 + (c.toNat - 48) > uint64Max then ParseOutcome.rangeFail
      else parseUintLoop (n * 10 + (c.toNat - 48)) rest
    else ParseOutcome.syntaxFail

/-- Value of `strconv.ParseInt(s, 10, 64)` when its error is discarded:
optional sign, then the `ParseUint` scan over the rest (empty rest is a
syntax error).  A syntax failure yields 0; a range failure yields the
sign's `int64` bound (`ParseUint` reported `maxVal`, which `ParseInt`
clamps); a parsed value at or beyond the `int64` range is clamped
likewise, except that `-2^63` itself is in range. -/
def goParseInt64 (s : String) : Int :=
  let cs := s.toList
  let body : Bool × List Char :=
    match cs with
    | '-' :: rest => (true, rest)
    | '+' :: rest => (false, rest)
    | _ => (false, cs)
  match (if body.2 = [] then ParseOutcome.syntaxFail else parseUintLoop 0 body.2) with
  | ParseOutcome.syntaxFail => 0
  | ParseOutcome.rangeFail => if body.1 then int64Min else int64Max
  | ParseOutcome.val un =>
    if body.1 then
      if un > 9223372036854775808 then int64Min else -(un : Int)
    else
      if un ≥ 9223372036854775808 then int64Max else (un : Int)

/-- Decimal digits to a number; `none` on a non-digit.  Used only by the
spec-modelled key below. -/
def decDigits (t : List Char) : Option Nat :=
  t.foldl
    (fun acc c =>
      match acc with
      | none => none
      | some n => if c.isDigit then some (n * 10 + (c.toNat - 48)) else none)
    (some 0)

/-- Modelled from the spec: the sort key the specification ascribes to a
deal id — "numeric deal-id parse failures are treated as sort key 0" —
i.e. *every* failed parse (including an out-of-range decimal) yields 0.
Kept separate from `goParseInt64`, which follows the source. -/
def specParseInt64 (s : String) : Int :=
  let cs := s.toList
  let body : Bool × List Char :=
    match cs with
    | '-' :: rest => (true, rest)
    | '+' :: rest => (false, rest)
    | _ => (false, cs)
  if body.2 = [] then 0
  else
    match decDigits body.2 with
    | none => 0
    | some n =>
      let v : Int := if body.1 then -(n : Int) else (n : Int)
      if v < int64Min ∨ v > int64Max then 0 else v

/-! ### Data model (structs of main.go) -/

/-- `market.DealProposal` fields read by `rollup`. -/
structure DealProposal where
  PieceCID : String
  PieceSize : Nat
  VerifiedDeal : Bool
  Client : String
  Provider : String
  Label : String
  StartEpoch : Int
  EndEpoch : Int
deriving DecidableEq, Repr

/-- `market.DealState` fields read by `rollup`. -/
structure DealState where
  SectorStartEpoch : Int
  SlashEpoch : Int
deriving DecidableEq, Repr

/-- One deal record of the `StateMarketDeals` snapshot. -/
structure MarketDeal where
  Proposal : DealProposal
  State : DealState
deriving DecidableEq, Repr

/-- `competitionTotal` (payload of `basic_stats.json`). -/
structure competitionTotal where
  UniqueCids : Nat
  UniqueProviders : Nat
  UniqueProjects : Nat
  UniqueClients : Nat
  TotalDeals : Nat
  TotalBytes : Int
  FilplusTotalDeals : Nat
  FilplusTotalBytes : Int
  seenProject : List String
  seenClient : List String
  seenProvider : List String
  seenPieceCid : List String
deriving DecidableEq, Repr

/-- `clientAggregateStats` (per-wallet statistics). -/
structure clientAggregateStats where
  Client : String
  DataSize : Int
  NumCids : Nat
  NumDeals : Nat
  NumProviders : Nat
  providers : List String
  cids : List String
deriving DecidableEq, Repr

/-- `projectAggregateStats` (per-participant statistics). -/
structure projectAggregateStats where
  ProjectID : String
  DataSizeMaxProvider : Int
  HighestCidDealCount : Nat
  DataSize : Int
  NumCids : Nat
  NumDeals : Nat
  NumProviders : Nat
  ClientStats : List (String × clientAggregateStats)
  dataPerProvider : List (String × Int)
  timesSeenPieceCid : List (String × Nat)
  timesSeenPieceCidAllTime : List (String × Nat)
deriving DecidableEq, Repr

/-- `individualDeal` (one element of a `deals_list_*.json` payload). -/
structure individualDeal where
  ProjectID : String
  Client : String
  DealID : String
  DealStartEpoch : Int
  MinerID : String
  PayloadCID : String
  PaddedSize : Int
deriving DecidableEq, Repr

/-- `recoveredDeal` (one element of `recovery_deallist.json`). -/
structure recoveredDeal where
  DealID : String
  ClientAddress : String
  MinerID : String
  PieceCID : String
  Label : String
  PayloadCIDb32 : String
  PaddedPieceSize : Nat
  DataSize : Nat
  DealStartEpoch : Int
  DealEndEpoch : Int
  RecoveryType : Int
deriving DecidableEq, Repr

/-- Run environment: chain height (`ts.Height()`), the two epoch
thresholds, the wallet resolver (`StateAccountKey` behind the
`resolvedWallets` cache — a pure function for the run, `none` meaning the
per-deal resolution failure that skips the deal), the participant
registry `knownAddrMap`, the recovery registry `knownRestoreClients`, and
the cid parser applied to labels, returning `(c.String(), cidV1-b32)` on
success. -/
structure Env where
  height : Int
  currentPhaseStart : Int
  recoveryStart : Int
  resolveWallet : String → Option String
  knownAddrMap : List (String × String)
  knownRestoreClients : List String
  parseCid : String → Option (String × String)

/-- Mutable state of the classification loop. -/
structure RollupState where
  recoveredDeals : List recoveredDeal
  projStats : List (String × projectAggregateStats)
  projDealLists : List (String × List individualDeal)
  grandTotals : competitionTotal
deriving DecidableEq, Repr

def initTotals : competitionTotal :=
  { UniqueCids := 0, UniqueProviders := 0, UniqueProjects := 0, UniqueClients := 0,
    TotalDeals := 0, TotalBytes := 0, FilplusTotalDeals := 0, FilplusTotalBytes := 0,
    seenProject := [], seenClient := [], seenProvider := [], seenPieceCid := [] }

def initState : RollupState :=
  { recoveredDeals := [], projStats := [], projDealLists := [], grandTotals := initTotals }

/-- Zero-valued `projectAggregateStats` created on first sight of a
participant. -/
def freshProjStats (projID : String) : projectAggregateStats :=
  { ProjectID := projID, DataSizeMaxProvider := 0, HighestCidDealCount := 0,
    DataSize := 0, NumCids := 0, NumDeals := 0, NumProviders := 0,
    ClientStats := [], dataPerProvider := [], timesSeenPieceCid := [],
    timesSeenPieceCidAllTime := [] }

/-- Zero-valued `clientAggregateStats` created on first sight of a
wallet. -/
def freshClientStats (client : String) : clientAggregateStats :=
  { Client := client, DataSize := 0, NumCids := 0, NumDeals := 0, NumProviders := 0,
    providers := [], cids := [] }

/-! ### Deterministic sequencer (main.go lines 268–301) -/

/-- Liveness filter: the loop over `deals` skips a deal when
`SectorStartEpoch <= 0`, `SectorStartEpoch > ts.Height()`, or
`SlashEpoch > -1`; everything else is live. -/
def isLiveB (env : Env) (e : String × MarketDeal) : Bool :=
  !(decide (e.2.State.SectorStartEpoch ≤ 0)
    || decide (e.2.State.SectorStartEpoch > env.height)
    || decide (e.2.State.SlashEpoch > -1))

/-- Sort key of the `sort.Slice` comparator over `orderedDealList`:
sector-start epoch, then proposal start epoch, then the deal id through
`strconv.ParseInt` with the error discarded. -/
def dealKey (e : String × MarketDeal) : Int × Int × Int :=
  (e.2.State.SectorStartEpoch, e.2.Proposal.StartEpoch, goParseInt64 e.1)

/-- Lexicographic non-strict order on triples: the negation-flip of the
strict three-way comparator in the source. -/
def tripleLE (x y : Int × Int × Int) : Prop :=
  x.1 < y.1 ∨ (x.1 = y.1 ∧ (x.2.1 < y.2.1 ∨ (x.2.1 = y.2.1 ∧ x.2.2 ≤ y.2.2)))

instance : DecidableRel tripleLE := fun x y => by unfold tripleLE; infer_instance

instance : IsTotal (Int × Int × Int) tripleLE :=
  ⟨by intro x y; unfold tripleLE; omega⟩

instance : IsTrans (Int × Int × Int) tripleLE :=
  ⟨by intro x y z; unfold tripleLE; omega⟩

/-- The classification order relation on `(dealID, deal)` pairs. -/
def dealLE (a b : String × MarketDeal) : Prop := tripleLE (dealKey a) (dealKey b)

instance : DecidableRel dealLE := fun a b => by unfold dealLE; infer_instance

instance : IsTotal (String × MarketDeal) dealLE :=
  ⟨fun a b => total_of tripleLE (dealKey a) (dealKey b)⟩

instance : IsTrans (String × MarketDeal) dealLE :=
  ⟨fun _ _ _ h h2 => Trans.trans (r := tripleLE) h h2⟩

/-- Modelled from the spec: the key the specification ascribes to the
same comparator, with *all* parse failures mapped to 0 (`specParseInt64`).
Used only to compare the spec's claimed order with the source's. -/
def specDealLE (a b : String × MarketDeal) : Prop :=
  tripleLE (a.2.State.SectorStartEpoch, a.2.Proposal.StartEpoch, specParseInt64 a.1)
    (b.2.State.SectorStartEpoch, b.2.Proposal.StartEpoch, specParseInt64 b.1)

instance : DecidableRel specDealLE := fun a b => by unfold specDealLE; infer_instance

/-- Go's `sort.Slice` contract: the output is a permutation of the input,
sorted with respect to (the reflexive closure of) the comparator — and
nothing more; in particular `sort.Slice` is documented as not stable. -/
def sortSliceSpec (r : α → α → Prop) (l out : List α) : Prop :=
  out.Perm l ∧ out.Sorted r

/-- `orderedDealList` after filtering and sorting (the model keeps the
pairs rather than ids; the Go ids index the unchanged `deals` map).
`List.insertionSort` is one implementation admitted by `sortSliceSpec`. -/
def orderedDeals (env : Env) (l : List (String × MarketDeal)) :
    List (String × MarketDeal) :=
  List.insertionSort dealLE (l.filter (isLiveB env))

/-! ### Deal classifier and aggregator (main.go lines 303–424) -/

/-- The recovery-registry check (main.go lines 326–342), run on every
resolved live deal independent of the totals path: append a
`recoveredDeal` of recovery type 1 when the wallet is registered, the
sector started at or after `recoveryStart`, and the proposal spans
strictly more than 499 days of epochs. -/
def recoveryStep (env : Env) (s : RollupState) (e : String × MarketDeal)
    (clientAddr : String) : RollupState :=
  let d := e.2
  let payloadCidB32 := ((env.parseCid d.Proposal.Label).map Prod.snd).getD "unknown"
  if clientAddr ∈ env.knownRestoreClients
      ∧ d.State.SectorStartEpoch ≥ env.recoveryStart
      ∧ d.Proposal.EndEpoch - d.Proposal.StartEpoch > EpochsInDay * 499 then
    { s with recoveredDeals := s.recoveredDeals ++
        [{ DealID := e.1, ClientAddress := clientAddr,
           MinerID := d.Proposal.Provider, PieceCID := d.Proposal.PieceCID,
           Label := d.Proposal.Label, PayloadCIDb32 := payloadCidB32,
           PaddedPieceSize := d.Proposal.PieceSize,
           DataSize := d.Proposal.PieceSize,
           DealStartEpoch := d.Proposal.StartEpoch,
           DealEndEpoch := d.Proposal.EndEpoch,
           RecoveryType := 1 }] }
  else s

/-- The totals path once the wallet is matched to participant `projID`
(main.go lines 354–423): increment the all-time piece-cid tally, then
apply the phase gate, the 360-day duration gate, the `seenProject` mark,
the ≥ 10 all-time cap, and finally fold the deal into every statistic and
the participant's deal list. -/
def classifyStep (env : Env) (s1 : RollupState) (e : String × MarketDeal)
    (clientAddr projID : String) : RollupState :=
  let d := e.2
  let payloadCid := ((env.parseCid d.Proposal.Label).map Prod.fst).getD "unknown"
  let entry0 := (mapLookup s1.projStats projID).getD (freshProjStats projID)
  let entry1 := { entry0 with
    timesSeenPieceCidAllTime :=
      bump entry0.timesSeenPieceCidAllTime d.Proposal.PieceCID }
  if d.State.SectorStartEpoch < env.currentPhaseStart then
    { s1 with projStats := mapInsert s1.projStats projID entry1 }
  else if d.Proposal.EndEpoch - d.Proposal.StartEpoch < EpochsInDay * 360 then
    { s1 with projStats := mapInsert s1.projStats projID entry1 }
  else
    let gt1 := { s1.grandTotals with
      seenProject := setAdd s1.grandTotals.seenProject projID }
    if lookupD entry1.timesSeenPieceCidAllTime d.Proposal.PieceCID 0 ≥ 10 then
      { s1 with projStats := mapInsert s1.projStats projID entry1,
                grandTotals := gt1 }
    else
      let size : Int := (d.Proposal.PieceSize : Int)
      let cstat0 := (mapLookup entry1.ClientStats clientAddr).getD
        (freshClientStats clientAddr)
      let cstat1 := { cstat0 with
        DataSize := cstat0.DataSize + size,
        providers := setAdd cstat0.providers d.Proposal.Provider,
        cids := setAdd cstat0.cids d.Proposal.PieceCID,
        NumDeals := cstat0.NumDeals + 1 }
      let entry2 := { entry1 with
        DataSize := entry1.DataSize + size,
        dataPerProvider := addTo entry1.dataPerProvider d.Proposal.Provider size,
        timesSeenPieceCid := bump entry1.timesSeenPieceCid d.Proposal.PieceCID,
        NumDeals := entry1.NumDeals + 1,
        ClientStats := mapInsert entry1.ClientStats clientAddr cstat1 }
      let gt2 := { gt1 with
        seenClient := setAdd gt1.seenClient clientAddr,
        TotalBytes := gt1.TotalBytes + size,
        seenProvider := setAdd gt1.seenProvider d.Proposal.Provider,
        seenPieceCid := setAdd gt1.seenPieceCid d.Proposal.PieceCID,
        TotalDeals := gt1.TotalDeals + 1,
        FilplusTotalDeals :=
          gt1.FilplusTotalDeals + (if d.Proposal.VerifiedDeal then 1 else 0),
        FilplusTotalBytes :=
          gt1.FilplusTotalBytes + (if d.Proposal.VerifiedDeal then size else 0) }
      let deal : individualDeal :=
        { DealID := e.1, ProjectID := projID, Client := clientAddr,
          MinerID := d.Proposal.Provider, PayloadCID := payloadCid,
          PaddedSize := size, DealStartEpoch := d.State.SectorStartEpoch }
      { s1 with
        projStats := mapInsert s1.projStats projID entry2,
        grandTotals := gt2,
        projDealLists := mapInsert s1.projDealLists projID
          ((mapLookup s1.projDealLists projID).getD [] ++ [deal]) }

/-- Body of the `for _, dealID := range orderedDealList` loop.  Branches,
in source order: wallet resolution (failure skips the deal), the
recovery-registry emission (`recoveryStep`), the hard-coded wallet
exclusion, participant membership, and the totals path (`classifyStep`). -/
def processDeal (env : Env) (s : RollupState) (e : String × MarketDeal) : RollupState :=
  match env.resolveWallet e.2.Proposal.Client with
  | none => s
  | some clientAddr =>
    let s1 := recoveryStep env s e clientAddr
    if clientAddr = excludedWallet ∧ e.2.State.SectorStartEpoch ≥ env.recoveryStart then
      s1
    else
      match mapLookup env.knownAddrMap clientAddr with
      | none => s1
      | some projID => classifyStep env s1 e clientAddr projID

/-- State after the full classification pass, before any emission. -/
def accumState (env : Env) (l : List (String × MarketDeal)) : RollupState :=
  (orderedDeals env l).foldl (processDeal env) initState

/-! ### Finalization and emission (main.go lines 426–518) -/

/-- Comparator of the per-participant emission sort
(`dl[j].PaddedSize < dl[i].PaddedSize`, i.e. descending piece size), as
the non-strict relation the sorted output satisfies. -/
def sizeGE (a b : individualDeal) : Prop := b.PaddedSize ≤ a.PaddedSize

instance : DecidableRel sizeGE := fun a b => by unfold sizeGE; infer_instance

instance : IsTotal individualDeal sizeGE :=
  ⟨by intro a b; unfold sizeGE; omega⟩

instance : IsTrans individualDeal sizeGE :=
  ⟨by intro a b c; unfold sizeGE; omega⟩

/-- Finalization of one participant's statistics: distinct-cid and
distinct-provider counts, the two maxima scans, and the per-wallet
distinct counts. -/
def finalizeProj (ps : projectAggregateStats) : projectAggregateStats :=
  { ps with
    NumCids := ps.timesSeenPieceCid.length,
    NumProviders := ps.dataPerProvider.length,
    HighestCidDealCount :=
      ps.timesSeenPieceCid.foldl (fun acc q => if acc < q.2 then q.2 else acc)
        ps.HighestCidDealCount,
    DataSizeMaxProvider :=
      ps.dataPerProvider.foldl (fun acc q => if acc < q.2 then q.2 else acc)
        ps.DataSizeMaxProvider,
    ClientStats := ps.ClientStats.map (fun q =>
      (q.1, { q.2 with NumCids := q.2.cids.length,
                       NumProviders := q.2.providers.length })) }

/-- Finalization of the global totals: cardinalities of the tracking
sets. -/
def finalizeTotals (gt : competitionTotal) : competitionTotal :=
  { gt with
    UniqueCids := gt.seenPieceCid.length,
    UniqueClients := gt.seenClient.length,
    UniqueProviders := gt.seenProvider.length,
    UniqueProjects := gt.seenProject.length }

/-- In-memory results of one `rollup` run, before JSON encoding. -/
structure RollupOutput where
  grandTotals : competitionTotal
  projStats : List (String × projectAggregateStats)
  projDealLists : List (String × List individualDeal)
  recoveredDeals : List recoveredDeal
deriving DecidableEq, Repr

/-- The whole engine: filter, sort, classify and aggregate, then emit —
each participant's deal list re-sorted descending by piece size and the
summary fields finalized. -/
def rollup (env : Env) (l : List (String × MarketDeal)) : RollupOutput :=
  let s := accumState env l
  { grandTotals := finalizeTotals s.grandTotals,
    projStats := s.projStats.map (fun q => (q.1, finalizeProj q.2)),
    projDealLists := s.projDealLists.map
      (fun q => (q.1, List.insertionSort sizeGE q.2)),
    recoveredDeals := s.recoveredDeals }

/-! ### Participant registry construction (main.go lines 593–616) -/

/-- One parsed element of the fetched project list: its wallet address,
project id, and declared dataset tags. -/
structure RegistryEntry where
  address : String
  project : String
  curatedDataset : List String
deriving DecidableEq, Repr

/-- The `knownProject` loop of `getAndParseProjectList`: an entry whose
`curatedDataset` contains the literal `"landsat-8"` is skipped; any other
entry is written into the wallet → project map. -/
def getAndParseProjectList (entries : List RegistryEntry) : List (String × String) :=
  entries.foldl
    (fun m p =>
      if "landsat-8" ∈ p.curatedDataset then m else mapInsert m p.address p.project)
    []

/-! ### Observations on states and outputs -/

/-- A deal is *counted* by one loop iteration when it is folded into the
totals (all late folds fire together; the global deal counter stands in
for all of them). -/
def countsDeal (env : Env) (s : RollupState) (e : String × MarketDeal) : Prop :=
  (processDeal env s e).grandTotals.TotalDeals = s.grandTotals.TotalDeals + 1

/-- The participant's all-time seen-count for a piece cid in a state
(0 when the participant or the cid has no entry yet). -/
def allTimeTally (s : RollupState) (projID cidK : String) : Nat :=
  lookupD ((mapLookup s.projStats projID).getD
    (freshProjStats projID)).timesSeenPieceCidAllTime cidK 0

/-- The participant's qualifying-deal count in a state. -/
def numDealsOf (s : RollupState) (projID : String) : Nat :=
  ((mapLookup s.projStats projID).getD (freshProjStats projID)).NumDeals

/-- `allTimeTally` read off a finished run. -/
def outAllTime (o : RollupOutput) (projID cidK : String) : Nat :=
  lookupD ((mapLookup o.projStats projID).getD
    (freshProjStats projID)).timesSeenPieceCidAllTime cidK 0

/-- `NumDeals` of a participant read off a finished run. -/
def outNumDeals (o : RollupOutput) (projID : String) : Nat :=
  ((mapLookup o.projStats projID).getD (freshProjStats projID)).NumDeals

/-! ### Association-list lemmas -/

theorem mapLookup_mapInsert_self [DecidableEq α] (m : List (α × β)) (k : α) (v : β) :
    mapLookup (mapInsert m k v) k = some v := by
  induction m with
  | nil => simp [mapInsert, mapLookup]
  | cons q rest ih =>
    obtain ⟨k0, w⟩ := q
    by_cases h : k0 = k <;> simp [mapInsert, mapLookup, h, ih]

theorem mapLookup_mapInsert_ne [DecidableEq α] (m : List (α × β)) {k k' : α} (v : β)
    (h : k' ≠ k) : mapLookup (mapInsert m k v) k' = mapLookup m k' := by
  have hne : k ≠ k' := Ne.symm h
  induction m with
  | nil => simp [mapInsert, mapLookup, hne]
  | cons q rest ih =>
    obtain ⟨k0, w⟩ := q
    by_cases h0 : k0 = k
    · subst h0
      simp [mapInsert, mapLookup, hne]
    · by_cases h1 : k0 = k' <;> simp [mapInsert, mapLookup, h, h0, h1, ih]

theorem lookupD_bump_self [DecidableEq α] (m : List (α × Nat)) (k : α) :
    lookupD (bump m k) k 0 = lookupD m k 0 + 1 := by
  induction m with
  | nil => simp [bump, lookupD, mapLookup]
  | cons q rest ih =>
    obtain ⟨k0, v⟩ := q
    by_cases h : k0 = k
    · subst h
      simp [bump, lookupD, mapLookup]
    · simpa [bump, lookupD, mapLookup, h] using ih

theorem lookupD_bump_ne [DecidableEq α] (m : List (α × Nat)) {k k' : α}
    (h : k' ≠ k) : lookupD (bump m k) k' 0 = lookupD m k' 0 := by
  have hne : k ≠ k' := Ne.symm h
  induction m with
  | nil => simp [bump, lookupD, mapLookup, hne]
  | cons q rest ih =>
    obtain ⟨k0, v⟩ := q
    by_cases h0 : k0 = k
    · subst h0
      simp [bump, lookupD, mapLookup, hne]
    · by_cases h1 : k0 = k'
      · subst h1
        simp [bump, lookupD, mapLookup, h0]
      · simpa [bump, lookupD, mapLookup, h0, h1] using ih

theorem mem_bump [DecidableEq α] {m : List (α × Nat)} {k : α} {q : α × Nat} :
    q ∈ bump m k → q ∈ m ∨ q = (k, lookupD m k 0 + 1) := by
  induction m with
  | nil =>
    intro hq
    simp only [bump] at hq
    right
    have hq2 := List.mem_singleton.1 hq
    simp [hq2, lookupD, mapLookup]
  | cons p rest ih =>
    intro hq
    obtain ⟨k0, v⟩ := p
    by_cases h : k0 = k
    · subst h
      simp only [bump, if_pos rfl] at hq
      rcases List.mem_cons.1 hq with hq2 | hq2
      · right; simp [hq2, lookupD, mapLookup]
      · left; exact List.mem_cons_of_mem _ hq2
    · simp only [bump, if_neg h] at hq
      rcases List.mem_cons.1 hq with hq2 | hq2
      · left; simp [hq2]
      · rcases ih hq2 with h2 | h2
        · left; exact List.mem_cons_of_mem _ h2
        · right
          simpa [lookupD, mapLookup, h] using h2

theorem mapLookup_map [DecidableEq α] (m : List (α × β)) (f : β → γ) (k : α) :
    mapLookup (m.map (fun q => (q.1, f q.2))) k = (mapLookup m k).map f := by
  induction m with
  | nil => simp [mapLookup]
  | cons q rest ih =>
    obtain ⟨k0, v⟩ := q
    by_cases h : k0 = k <;> simp [mapLookup, h, ih]

/-- Bound on the running-maximum fold used at finalization. -/
theorem foldl_max_le {l : List (α × Nat)} {b acc : Nat} (hacc : acc ≤ b)
    (hl : ∀ q ∈ l, q.2 ≤ b) :
    l.foldl (fun acc q => if acc < q.2 then q.2 else acc) acc ≤ b := by
  induction l generalizing acc with
  | nil => exact hacc
  | cons q rest ih =>
    simp only [List.foldl_cons]
    refine ih ?_ (fun p hp => hl p (List.mem_cons_of_mem _ hp))
    by_cases h : acc < q.2
    · simpa [h] using hl q (List.mem_cons_self _ _)
    · simpa [h] using hacc

/-- Two sorted lists that are permutations of each other agree, as long
as the order relation is antisymmetric on the elements involved. -/
theorem sorted_perm_eq {r : α → α → Prop} :
    ∀ {l1 l2 : List α}, l1.Perm l2 → l1.Sorted r → l2.Sorted r →
      (∀ a ∈ l1, ∀ b ∈ l1, r a b → r b a → a = b) → l1 = l2 := by
  intro l1
  induction l1 with
  | nil => intro l2 hp _ _ _; exact hp.nil_eq
  | cons a t1 ih =>
    intro l2 hp hs1 hs2 hanti
    cases l2 with
    | nil => exact absurd hp.symm.nil_eq (by simp)
    | cons b t2 =>
      have hab : a = b := by
        by_cases h : a = b
        · exact h
        · have hbmem : b ∈ a :: t1 := hp.mem_iff.2 (List.mem_cons_self _ _)
          have hamem : a ∈ b :: t2 := hp.mem_iff.1 (List.mem_cons_self _ _)
          have hbt1 : b ∈ t1 := by
            rcases List.mem_cons.1 hbmem with h2 | h2
            · exact absurd h2.symm h
            · exact h2
          have hat2 : a ∈ t2 := by
            rcases List.mem_cons.1 hamem with h2 | h2
            · exact absurd h2 h
            · exact h2
          have hrab : r a b := (List.sorted_cons.1 hs1).1 b hbt1
          have hrba : r b a := (List.sorted_cons.1 hs2).1 a hat2
          exact hanti a (List.mem_cons_self _ _) b hbmem hrab hrba
      subst hab
      have ht : t1 = t2 := by
        refine ih hp.cons_inv (List.sorted_cons.1 hs1).2 (List.sorted_cons.1 hs2).2 ?_
        intro x hx y hy
        exact hanti x (List.mem_cons_of_mem _ hx) y (List.mem_cons_of_mem _ hy)
      rw [ht]

/-! ### Branch structure of the loop body -/

theorem recoveryStep_projStats (env : Env) (s : RollupState) (e : String × MarketDeal)
    (c : String) : (recoveryStep env s e c).projStats = s.projStats := by
  unfold recoveryStep
  dsimp only
  split <;> rfl

theorem recoveryStep_projDealLists (env : Env) (s : RollupState) (e : String × MarketDeal)
    (c : String) : (recoveryStep env s e c).projDealLists = s.projDealLists := by
  unfold recoveryStep
  dsimp only
  split <;> rfl

theorem recoveryStep_grandTotals (env : Env) (s : RollupState) (e : String × MarketDeal)
    (c : String) : (recoveryStep env s e c).grandTotals = s.grandTotals := by
  unfold recoveryStep
  dsimp only
  split <;> rfl

theorem classifyStep_recoveredDeals (env : Env) (s : RollupState) (e : String × MarketDeal)
    (c p : String) : (classifyStep env s e c p).recoveredDeals = s.recoveredDeals := by
  unfold classifyStep
  dsimp only
  split_ifs <;> rfl

theorem processDeal_recoveredDeals (env : Env) (s : RollupState) (e : String × MarketDeal)
    {w : String} (hres : env.resolveWallet e.2.Proposal.Client = some w) :
    (processDeal env s e).recoveredDeals = (recoveryStep env s e w).recoveredDeals := by
  unfold processDeal
  rw [hres]
  dsimp only
  split_ifs with h
  · rfl
  · cases hm : mapLookup env.knownAddrMap w
    · rfl
    · exact classifyStep_recoveredDeals _ _ _ _ _

theorem classifyStep_allTimeTally (env : Env) (s : RollupState) (e : String × MarketDeal)
    (c p : String) :
    allTimeTally (classifyStep env s e c p) p e.2.Proposal.PieceCID =
      allTimeTally s p e.2.Proposal.PieceCID + 1 := by
  unfold classifyStep
  dsimp only
  split_ifs <;>
    (simp only [allTimeTally, mapLookup_mapInsert_self, Option.getD_some]
     exact lookupD_bump_self _ _)

theorem classifyStep_TotalDeals (env : Env) (s : RollupState) (e : String × MarketDeal)
    (c p : String) :
    (classifyStep env s e c p).grandTotals.TotalDeals =
      s.grandTotals.TotalDeals +
        (if e.2.State.SectorStartEpoch ≥ env.currentPhaseStart
            ∧ e.2.Proposal.EndEpoch - e.2.Proposal.StartEpoch ≥ EpochsInDay * 360
            ∧ allTimeTally s p e.2.Proposal.PieceCID + 1 < 10
         then 1 else 0) := by
  unfold classifyStep
  dsimp only
  simp only [allTimeTally]
  have hb := lookupD_bump_self
    (((mapLookup s.projStats p).getD (freshProjStats p)).timesSeenPieceCidAllTime)
    e.2.Proposal.PieceCID
  split_ifs <;> (try dsimp only) <;> omega

theorem classifyStep_numDealsOf (env : Env) (s : RollupState) (e : String × MarketDeal)
    (c p : String) :
    numDealsOf (classifyStep env s e c p) p =
      numDealsOf s p +
        (if e.2.State.SectorStartEpoch ≥ env.currentPhaseStart
            ∧ e.2.Proposal.EndEpoch - e.2.Proposal.StartEpoch ≥ EpochsInDay * 360
            ∧ allTimeTally s p e.2.Proposal.PieceCID + 1 < 10
         then 1 else 0) := by
  unfold classifyStep
  dsimp only
  simp only [allTimeTally, numDealsOf]
  have hb := lookupD_bump_self
    (((mapLookup s.projStats p).getD (freshProjStats p)).timesSeenPieceCidAllTime)
    e.2.Proposal.PieceCID
  split_ifs <;> simp only [mapLookup_mapInsert_self, Option.getD_some] <;> omega

theorem allTimeTally_eq_of_projStats {s1 s2 : RollupState}
    (h : s1.projStats = s2.projStats) (p c : String) :
    allTimeTally s1 p c = allTimeTally s2 p c := by
  unfold allTimeTally
  rw [h]

theorem numDealsOf_eq_of_projStats {s1 s2 : RollupState}
    (h : s1.projStats = s2.projStats) (p : String) :
    numDealsOf s1 p = numDealsOf s2 p := by
  unfold numDealsOf
  rw [h]

/-! ### Concrete fixtures used by witnesses and counterexamples -/

/-- A deal record with the fields the witnesses vary. -/
def mkDealW (id cidK : String) (ss ps pe : Int) (size : Nat) : String × MarketDeal :=
  (id, { Proposal := { PieceCID := cidK, PieceSize := size, VerifiedDeal := false,
                       Client := "w", Provider := "m", Label := "L",
                       StartEpoch := ps, EndEpoch := pe },
         State := { SectorStartEpoch := ss, SlashEpoch := -1 } })

/-- Environment with one participant wallet "w" (project "proj"), one
recovery wallet "w2", an identity resolver and an always-failing cid
parser. -/
def envW : Env :=
  { height := 10000000, currentPhaseStart := 100, recoveryStart := 1000,
    resolveWallet := fun c => some c, knownAddrMap := [("w", "proj")],
    knownRestoreClients := ["w2"], parseCid := fun _ => none }

/-- A single qualifying deal: live, sector start exactly at the phase
start, duration exactly 360 days of epochs. -/
def dealW : String × MarketDeal := mkDealW "1" "K" 100 0 1036800 64

/-! ### Claims -/

/-- C1: a deal is folded into GlobalTotals exactly when it escapes the
hard-coded wallet exclusion, its sector-start epoch is ≥ the phase-start
threshold (inclusive), its proposal duration is ≥ 360 · EpochsInDay
(inclusive), and the participant's all-time tally for its piece cid, as
already incremented for this deal, is < 10 (exclusive).  Both boundary
cases of the claim (duration exactly 360 days, sector start exactly at
the phase start) are counted, since the characterization is an
equivalence with non-strict ≥ on both gates. -/
theorem C1_counted_gates (env : Env) (s : RollupState) (e : String × MarketDeal)
    (w projID : String)
    (hres : env.resolveWallet e.2.Proposal.Client = some w)
    (hmap : mapLookup env.knownAddrMap w = some projID) :
    countsDeal env s e ↔
      (¬ (w = excludedWallet ∧ e.2.State.SectorStartEpoch ≥ env.recoveryStart)
       ∧ e.2.State.SectorStartEpoch ≥ env.currentPhaseStart
       ∧ e.2.Proposal.EndEpoch - e.2.Proposal.StartEpoch ≥ EpochsInDay * 360
       ∧ allTimeTally s projID e.2.Proposal.PieceCID + 1 < 10) := by
  unfold countsDeal processDeal
  rw [hres]
  dsimp only
  by_cases hex : w = excludedWallet ∧ e.2.State.SectorStartEpoch ≥ env.recoveryStart
  · rw [if_pos hex, recoveryStep_grandTotals]
    constructor
    · intro h
      omega
    · intro h
      exact absurd hex h.1
  · rw [if_neg hex, hmap]
    dsimp only
    rw [classifyStep_TotalDeals env (recoveryStep env s e w) e w projID,
      recoveryStep_grandTotals,
      allTimeTally_eq_of_projStats (recoveryStep_projStats env s e w) projID
        e.2.Proposal.PieceCID]
    constructor
    · intro h
      refine ⟨hex, ?_⟩
      by_contra hc
      rw [if_neg hc] at h
      omega
    · rintro ⟨-, hc⟩
      rw [if_pos hc]

/-- Witness for C1 at a concrete boundary input: sector start equal to
the phase start and duration exactly 360 days of epochs. -/
theorem C1_counted_gates_witness :
    countsDeal envW initState dealW ↔
      (¬ ("w" = excludedWallet ∧ dealW.2.State.SectorStartEpoch ≥ envW.recoveryStart)
       ∧ dealW.2.State.SectorStartEpoch ≥ envW.currentPhaseStart
       ∧ dealW.2.Proposal.EndEpoch - dealW.2.Proposal.StartEpoch ≥ EpochsInDay * 360
       ∧ allTimeTally initState "proj" dealW.2.Proposal.PieceCID + 1 < 10) :=
  C1_counted_gates envW initState dealW "w" "proj" rfl (by decide)

/-- A deal in the recovery configuration: client wallet "w2" (in the
recovery registry of `envW` but not in its participant registry), sector
started exactly at the recovery threshold, duration one epoch above
499 days. -/
def dealR : String × MarketDeal :=
  ("5", { Proposal := { PieceCID := "K", PieceSize := 64, VerifiedDeal := false,
                        Client := "w2", Provider := "m", Label := "L",
                        StartEpoch := 0, EndEpoch := 1437121 },
          State := { SectorStartEpoch := 1000, SlashEpoch := -1 } })

/-- A terminated deal: its slash epoch is set, so it is not live. -/
def dealDead : String × MarketDeal :=
  ("2", { Proposal := { PieceCID := "K", PieceSize := 64, VerifiedDeal := false,
                        Client := "w", Provider := "m", Label := "L",
                        StartEpoch := 0, EndEpoch := 1036800 },
          State := { SectorStartEpoch := 100, SlashEpoch := 0 } })

/-- C4: for a resolved deal, a `recoveredDeal` with recovery type 1 is
appended exactly when the wallet is in the recovery registry, the sector
started at or after the recovery threshold, and the duration strictly
exceeds 499 · EpochsInDay.  The right-hand side mentions neither the
participant registry nor the hard-coded wallet exclusion, and the
equation holds for every environment, so the emission is independent of
both; in particular a deal can be recovered yet contribute nothing to
totals. -/
theorem C4_recovery_emission (env : Env) (s : RollupState) (e : String × MarketDeal)
    (w : String) (hres : env.resolveWallet e.2.Proposal.Client = some w) :
    (processDeal env s e).recoveredDeals =
      s.recoveredDeals ++
        (if w ∈ env.knownRestoreClients
            ∧ e.2.State.SectorStartEpoch ≥ env.recoveryStart
            ∧ e.2.Proposal.EndEpoch - e.2.Proposal.StartEpoch > EpochsInDay * 499 then
          [{ DealID := e.1, ClientAddress := w, MinerID := e.2.Proposal.Provider,
             PieceCID := e.2.Proposal.PieceCID, Label := e.2.Proposal.Label,
             PayloadCIDb32 := ((env.parseCid e.2.Proposal.Label).map Prod.snd).getD "unknown",
             PaddedPieceSize := e.2.Proposal.PieceSize,
             DataSize := e.2.Proposal.PieceSize,
             DealStartEpoch := e.2.Proposal.StartEpoch,
             DealEndEpoch := e.2.Proposal.EndEpoch,
             RecoveryType := 1 }]
         else []) := by
  rw [processDeal_recoveredDeals env s e hres]
  unfold recoveryStep
  dsimp only
  split_ifs with h
  · rfl
  · simp

/-- Witness for C4: the recovery deal `dealR` is emitted even though its
wallet "w2" is not in the participant registry of `envW`. -/
theorem C4_recovery_emission_witness :
    (processDeal envW initState dealR).recoveredDeals =
      initState.recoveredDeals ++
        (if "w2" ∈ envW.knownRestoreClients
            ∧ dealR.2.State.SectorStartEpoch ≥ envW.recoveryStart
            ∧ dealR.2.Proposal.EndEpoch - dealR.2.Proposal.StartEpoch > EpochsInDay * 499 then
          [{ DealID := dealR.1, ClientAddress := "w2",
             MinerID := dealR.2.Proposal.Provider,
             PieceCID := dealR.2.Proposal.PieceCID, Label := dealR.2.Proposal.Label,
             PayloadCIDb32 := ((envW.parseCid dealR.2.Proposal.Label).map Prod.snd).getD "unknown",
             PaddedPieceSize := dealR.2.Proposal.PieceSize,
             DataSize := dealR.2.Proposal.PieceSize,
             DealStartEpoch := dealR.2.Proposal.StartEpoch,
             DealEndEpoch := dealR.2.Proposal.EndEpoch,
             RecoveryType := 1 }]
         else []) :=
  C4_recovery_emission envW initState dealR "w2" rfl

/-- C5: a deal that is not live — sector-start epoch ≤ 0, or above the
chain height, or slash epoch ≥ 0 — can be deleted from the input snapshot
without changing any output of the run: it contributes to no totals, no
per-participant statistics or deal list, no recovery list, and no
all-time tally. -/
theorem C5_not_live_contributes_nothing (env : Env)
    (l1 l2 : List (String × MarketDeal)) (e : String × MarketDeal)
    (h : isLiveB env e = false) :
    rollup env (l1 ++ e :: l2) = rollup env (l1 ++ l2) := by
  unfold rollup accumState orderedDeals
  dsimp only
  have hf : List.filter (isLiveB env) (l1 ++ e :: l2) =
      List.filter (isLiveB env) (l1 ++ l2) := by
    simp [List.filter_append, List.filter_cons, h]
  rw [hf]

/-- Witness for C5: deleting the slashed deal `dealDead` leaves the whole
output unchanged. -/
theorem C5_not_live_contributes_nothing_witness :
    rollup envW ([] ++ dealDead :: [dealW]) = rollup envW ([] ++ [dealW]) :=
  C5_not_live_contributes_nothing envW [] [dealW] dealDead (by decide)

theorem foldl_registry_lookup_none (w : String) :
    ∀ (entries : List RegistryEntry) (m : List (String × String)),
      (∀ ent ∈ entries, ent.address = w → "landsat-8" ∈ ent.curatedDataset) →
      mapLookup (entries.foldl
        (fun m p =>
          if "landsat-8" ∈ p.curatedDataset then m
          else mapInsert m p.address p.project) m) w = mapLookup m w := by
  intro entries
  induction entries with
  | nil => intro m _; rfl
  | cons ent rest ih =>
    intro m hw
    simp only [List.foldl_cons]
    by_cases ht : "landsat-8" ∈ ent.curatedDataset
    · rw [if_pos ht]
      exact ih _ (fun x hx => hw x (List.mem_cons_of_mem _ hx))
    · rw [if_neg ht, ih _ (fun x hx => hw x (List.mem_cons_of_mem _ hx))]
      refine mapLookup_mapInsert_ne _ _ (fun hEq => ?_)
      exact ht (hw ent (List.mem_cons_self _ _) hEq.symm)

/-- C8: a wallet whose every registry entry carries the case-sensitive
tag "landsat-8" ends up absent from the participant map, and a resolved
deal of a wallet absent from the participant map leaves the global
totals, the per-participant statistics and every deal list untouched —
so such a participant contributes zero deals, bytes and counts even for
deals that would pass every other gate. -/
theorem C8_landsat_entries_contribute_nothing (entries : List RegistryEntry)
    (w : String) (env : Env) (s : RollupState) (e : String × MarketDeal)
    (hw : ∀ ent ∈ entries, ent.address = w → "landsat-8" ∈ ent.curatedDataset)
    (hres : env.resolveWallet e.2.Proposal.Client = some w)
    (hnone : mapLookup env.knownAddrMap w = none) :
    mapLookup (getAndParseProjectList entries) w = none
    ∧ (processDeal env s e).grandTotals = s.grandTotals
    ∧ (processDeal env s e).projStats = s.projStats
    ∧ (processDeal env s e).projDealLists = s.projDealLists := by
  refine ⟨?_, ?_⟩
  · unfold getAndParseProjectList
    rw [foldl_registry_lookup_none w entries [] hw]
    rfl
  · unfold processDeal
    rw [hres]
    dsimp only
    split_ifs with hex
    · exact ⟨recoveryStep_grandTotals _ _ _ _, recoveryStep_projStats _ _ _ _,
        recoveryStep_projDealLists _ _ _ _⟩
    · rw [hnone]
      exact ⟨recoveryStep_grandTotals _ _ _ _, recoveryStep_projStats _ _ _ _,
        recoveryStep_projDealLists _ _ _ _⟩

/-- A deal of the landsat-tagged wallet "w3". -/
def dealL : String × MarketDeal :=
  ("3", { Proposal := { PieceCID := "K", PieceSize := 64, VerifiedDeal := false,
                        Client := "w3", Provider := "m", Label := "L",
                        StartEpoch := 0, EndEpoch := 1036800 },
          State := { SectorStartEpoch := 100, SlashEpoch := -1 } })

/-- Witness for C8: a registry whose only entry for wallet "w3" is
tagged "landsat-8", and an otherwise-qualifying deal of "w3". -/
theorem C8_landsat_entries_contribute_nothing_witness :
    mapLookup (getAndParseProjectList
      [{ address := "w3", project := "p3", curatedDataset := ["landsat-8"] }]) "w3" = none
    ∧ (processDeal envW initState dealL).grandTotals = initState.grandTotals
    ∧ (processDeal envW initState dealL).projStats = initState.projStats
    ∧ (processDeal envW initState dealL).projDealLists = initState.projDealLists :=
  C8_landsat_entries_contribute_nothing
    [{ address := "w3", project := "p3", curatedDataset := ["landsat-8"] }]
    "w3" envW initState dealL (by decide) rfl (by decide)

/-! ### C2: the per-piece-cid cap over an ordered pass -/

/-- A deal that passes the liveness, resolution, non-exclusion,
participant-membership (to participant `p`), phase-start and duration
gates, and carries piece cid `K`. -/
def qualifiesB (env : Env) (p K : String) (e : String × MarketDeal) : Bool :=
  match env.resolveWallet e.2.Proposal.Client with
  | none => false
  | some w =>
    decide (w ≠ excludedWallet) && decide (mapLookup env.knownAddrMap w = some p) &&
    decide (e.2.Proposal.PieceCID = K) && isLiveB env e &&
    decide (e.2.State.SectorStartEpoch ≥ env.currentPhaseStart) &&
    decide (e.2.Proposal.EndEpoch - e.2.Proposal.StartEpoch ≥ EpochsInDay * 360)

/-- Number of deals counted among `n` same-cid qualifying deals processed
from an all-time tally of `t`: one per deal whose incremented tally stays
at most 9. -/
def cnt (t n : Nat) : Nat :=
  match n with
  | 0 => 0
  | Nat.succ m => (if t + 1 ≤ 9 then 1 else 0) + cnt (t + 1) m

theorem processDeal_qualifying (env : Env) (p K : String) (e : String × MarketDeal)
    (hq : qualifiesB env p K e = true) (s : RollupState) :
    allTimeTally (processDeal env s e) p K = allTimeTally s p K + 1
    ∧ (processDeal env s e).grandTotals.TotalDeals =
        s.grandTotals.TotalDeals + (if allTimeTally s p K + 1 ≤ 9 then 1 else 0)
    ∧ numDealsOf (processDeal env s e) p =
        numDealsOf s p + (if allTimeTally s p K + 1 ≤ 9 then 1 else 0) := by
  unfold qualifiesB at hq
  cases hres : env.resolveWallet e.2.Proposal.Client with
  | none => rw [hres] at hq; exact absurd hq (by simp)
  | some w =>
    rw [hres] at hq
    simp only [Bool.and_eq_true, decide_eq_true_eq] at hq
    obtain ⟨⟨⟨⟨⟨hwx, hmap⟩, hK⟩, hlive⟩, hphase⟩, hdur⟩ := hq
    subst hK
    unfold processDeal
    rw [hres]
    dsimp only
    rw [if_neg (fun hc => hwx hc.1), hmap]
    dsimp only
    rw [classifyStep_allTimeTally env (recoveryStep env s e w) e w p,
      classifyStep_TotalDeals env (recoveryStep env s e w) e w p,
      classifyStep_numDealsOf env (recoveryStep env s e w) e w p,
      allTimeTally_eq_of_projStats (recoveryStep_projStats env s e w) p
        e.2.Proposal.PieceCID,
      numDealsOf_eq_of_projStats (recoveryStep_projStats env s e w) p,
      recoveryStep_grandTotals env s e w]
    have hcond : (e.2.State.SectorStartEpoch ≥ env.currentPhaseStart
        ∧ e.2.Proposal.EndEpoch - e.2.Proposal.StartEpoch ≥ EpochsInDay * 360
        ∧ allTimeTally s p e.2.Proposal.PieceCID + 1 < 10)
        ↔ allTimeTally s p e.2.Proposal.PieceCID + 1 ≤ 9 := by
      constructor
      · intro hc
        omega
      · intro h9
        exact ⟨hphase, hdur, by omega⟩
    simp only [hcond]
    exact ⟨trivial, trivial, trivial⟩

theorem foldl_qualifying (env : Env) (p K : String) :
    ∀ ds : List (String × MarketDeal), (∀ e ∈ ds, qualifiesB env p K e = true) →
      ∀ s : RollupState,
      allTimeTally (ds.foldl (processDeal env) s) p K = allTimeTally s p K + ds.length
      ∧ (ds.foldl (processDeal env) s).grandTotals.TotalDeals =
          s.grandTotals.TotalDeals + cnt (allTimeTally s p K) ds.length
      ∧ numDealsOf (ds.foldl (processDeal env) s) p =
          numDealsOf s p + cnt (allTimeTally s p K) ds.length := by
  intro ds
  induction ds with
  | nil => intro _ s; simp [cnt]
  | cons e rest ih =>
    intro hq s
    have hqe := hq e (List.mem_cons_self _ _)
    have hqr : ∀ x ∈ rest, qualifiesB env p K x = true :=
      fun x hx => hq x (List.mem_cons_of_mem _ hx)
    obtain ⟨h1, h2, h3⟩ := processDeal_qualifying env p K e hqe s
    obtain ⟨i1, i2, i3⟩ := ih hqr (processDeal env s e)
    simp only [List.foldl_cons, List.length_cons]
    rw [i1, i2, i3, h1, h2, h3]
    refine ⟨by omega, ?_, ?_⟩ <;> (simp only [cnt]; omega)

theorem rollup_TotalDeals (env : Env) (l : List (String × MarketDeal)) :
    (rollup env l).grandTotals.TotalDeals =
      (accumState env l).grandTotals.TotalDeals := rfl

theorem outNumDeals_rollup (env : Env) (l : List (String × MarketDeal)) (p : String) :
    outNumDeals (rollup env l) p = numDealsOf (accumState env l) p := by
  unfold outNumDeals numDealsOf rollup
  dsimp only
  rw [mapLookup_map]
  cases mapLookup (accumState env l).projStats p <;> simp [finalizeProj, freshProjStats]

theorem outAllTime_rollup (env : Env) (l : List (String × MarketDeal)) (p K : String) :
    outAllTime (rollup env l) p K = allTimeTally (accumState env l) p K := by
  unfold outAllTime allTimeTally rollup
  dsimp only
  rw [mapLookup_map]
  cases mapLookup (accumState env l).projStats p <;> simp [finalizeProj, freshProjStats]

/-- C2: over a live input of exactly 11 deals, all qualifying for one
participant and all sharing one piece cid, exactly 9 are counted into
the global totals and the participant's deal count, while the all-time
tally for that piece cid finishes at 11, because it is incremented for
every participant-matched live deal before the phase, duration and cap
gates run. -/
theorem C2_cap_boundary_eleven_deals (env : Env) (l : List (String × MarketDeal))
    (p K : String) (hq : ∀ e ∈ l, qualifiesB env p K e = true)
    (hlen : l.length = 11) :
    (rollup env l).grandTotals.TotalDeals = 9
    ∧ outNumDeals (rollup env l) p = 9
    ∧ outAllTime (rollup env l) p K = 11 := by
  have hfilter : List.filter (isLiveB env) l = l := by
    apply List.filter_eq_self.2
    intro a ha
    have hqa := hq a ha
    unfold qualifiesB at hqa
    cases hres : env.resolveWallet a.2.Proposal.Client with
    | none => rw [hres] at hqa; exact absurd hqa (by simp)
    | some w =>
      rw [hres] at hqa
      simp only [Bool.and_eq_true] at hqa
      exact hqa.1.1.2
  have hperm : (orderedDeals env l).Perm l := by
    unfold orderedDeals
    rw [hfilter]
    exact List.perm_insertionSort _ _
  have hq2 : ∀ e ∈ orderedDeals env l, qualifiesB env p K e = true :=
    fun e he => hq e (hperm.mem_iff.1 he)
  have hlen2 : (orderedDeals env l).length = 11 := by rw [hperm.length_eq, hlen]
  obtain ⟨t1, t2, t3⟩ := foldl_qualifying env p K (orderedDeals env l) hq2 initState
  have hacc : accumState env l = (orderedDeals env l).foldl (processDeal env) initState := rfl
  have hz1 : allTimeTally initState p K = 0 := rfl
  have hz2 : (initState).grandTotals.TotalDeals = 0 := rfl
  have hz3 : numDealsOf initState p = 0 := rfl
  refine ⟨?_, ?_, ?_⟩
  · rw [rollup_TotalDeals, hacc, t2, hz1, hz2, hlen2]
    rfl
  · rw [outNumDeals_rollup, hacc, t3, hz1, hz3, hlen2]
    rfl
  · rw [outAllTime_rollup, hacc, t1, hz1, hlen2]

/-- Eleven qualifying deals of wallet "w", all with piece cid "K". -/
def deals11 : List (String × MarketDeal) :=
  [mkDealW "1" "K" 100 0 1036800 64, mkDealW "2" "K" 100 0 1036800 64,
   mkDealW "3" "K" 100 0 1036800 64, mkDealW "4" "K" 100 0 1036800 64,
   mkDealW "5" "K" 100 0 1036800 64, mkDealW "6" "K" 100 0 1036800 64,
   mkDealW "7" "K" 100 0 1036800 64, mkDealW "8" "K" 100 0 1036800 64,
   mkDealW "9" "K" 100 0 1036800 64, mkDealW "10" "K" 100 0 1036800 64,
   mkDealW "11" "K" 100 0 1036800 64]

/-- Witness for C2 with eleven concrete deals. -/
theorem C2_cap_boundary_eleven_deals_witness :
    (rollup envW deals11).grandTotals.TotalDeals = 9
    ∧ outNumDeals (rollup envW deals11) "proj" = 9
    ∧ outAllTime (rollup envW deals11) "proj" "K" = 11 :=
  C2_cap_boundary_eleven_deals envW deals11 "proj" "K" (by decide) (by decide)

/-! ### C9: `seenProject` is marked before the cap gate -/

/-- Ten deals that fail the phase gate (sector start 99 < 100) while
still incrementing the all-time tally for piece cid "K", followed by one
deal that passes the phase and duration gates but is then excluded by the
≥ 10 cap. -/
def dealsC9 : List (String × MarketDeal) :=
  [mkDealW "1" "K" 99 0 0 64, mkDealW "2" "K" 99 0 0 64,
   mkDealW "3" "K" 99 0 0 64, mkDealW "4" "K" 99 0 0 64,
   mkDealW "5" "K" 99 0 0 64, mkDealW "6" "K" 99 0 0 64,
   mkDealW "7" "K" 99 0 0 64, mkDealW "8" "K" 99 0 0 64,
   mkDealW "9" "K" 99 0 0 64, mkDealW "10" "K" 99 0 0 64,
   mkDealW "11" "K" 100 0 1036800 64]

/-- C9: because a deal that passes the phase and duration gates marks its
participant in `seenProject` before the per-piece-cid cap is checked,
there are inputs on which a participant is counted in UniqueProjects
while contributing zero to every other global total: here the eleventh
deal of `dealsC9` is cap-excluded (the ten earlier phase-failing deals
pushed the all-time tally to 10), yet "proj" is counted as a unique
project. -/
theorem C9_unique_project_with_zero_contribution :
    (rollup envW dealsC9).grandTotals.UniqueProjects = 1
    ∧ (rollup envW dealsC9).grandTotals.TotalDeals = 0
    ∧ (rollup envW dealsC9).grandTotals.TotalBytes = 0
    ∧ (rollup envW dealsC9).grandTotals.UniqueClients = 0
    ∧ (rollup envW dealsC9).grandTotals.UniqueProviders = 0
    ∧ (rollup envW dealsC9).grandTotals.UniqueCids = 0 := by
  decide

/-! ### C6 and C7: the deterministic sequencer -/

theorem tripleLE_antisymm {x y : Int × Int × Int}
    (h1 : tripleLE x y) (h2 : tripleLE y x) : x = y := by
  obtain ⟨x1, x2, x3⟩ := x
  obtain ⟨y1, y2, y3⟩ := y
  unfold tripleLE at h1 h2
  dsimp only at h1 h2
  simp only [Prod.mk.injEq]
  rcases h1 with h1 | ⟨e1, h1 | ⟨e1b, h1⟩⟩ <;>
    rcases h2 with h2 | ⟨e2, h2 | ⟨e2b, h2⟩⟩ <;> omega

/-- A deal whose id overflows `int64`: `strconv.ParseInt` reports an
error and returns the clamped bound, which the source keeps as the sort
key. -/
def dealBig : String × MarketDeal :=
  mkDealW "99999999999999999999999" "K" 100 0 1036800 64

/-- Counterexample for C6: the classification order of a snapshot holding
`dealBig` and the numeric deal "1" keeps "1" first, because the
overflowing id gets the clamped key `int64Max`; under the claim's key —
every parse failure becomes 0 — that order is not sorted, so the
classification order is not produced by the claimed key.  The last two
conjuncts exhibit the same violation inside the syntactically invalid
class: an id whose digit prefix overflows before its first invalid
character ("99999999999999999999x") also keys as `int64Max`, not 0,
because `ParseUint` stops with `ErrRange` at the overflowing digit and
never reaches the "x". -/
theorem C6_parse_failure_key_counterexample :
    orderedDeals envW [dealBig, dealW] = [dealW, dealBig]
    ∧ goParseInt64 dealBig.1 = int64Max
    ∧ specParseInt64 dealBig.1 = 0
    ∧ ¬ (orderedDeals envW [dealBig, dealW]).Sorted specDealLE
    ∧ goParseInt64 "99999999999999999999x" = int64Max
    ∧ specParseInt64 "99999999999999999999x" = 0
    ∧ goParseInt64 "9999999999999999999x" = 0 := by
  decide

/-- C6 (amended): the classification order is the live-filtered snapshot
sorted by (sector-start epoch, proposal start epoch, deal id through
`strconv.ParseInt` with the error discarded).  That key is 0 only when
the scan reaches an invalid character (or the end of an empty body)
before any overflow; an id whose digit prefix overflows — whatever
follows it — keys as the clamped `int64` bound, and an in-range value
keys as itself. -/
theorem C6_classification_order (env : Env) (l : List (String × MarketDeal)) :
    (orderedDeals env l).Sorted dealLE
    ∧ (orderedDeals env l).Perm (l.filter (isLiveB env)) :=
  ⟨List.sorted_insertionSort dealLE _, List.perm_insertionSort dealLE _⟩

/-- Deals "7" and "07": distinct records with identical sort keys
(both ids parse to 7) and identical piece sizes. -/
def dealS7 : String × MarketDeal := mkDealW "7" "K" 100 0 1036800 64

def dealS07 : String × MarketDeal := mkDealW "07" "K" 100 0 1036800 64

/-- Counterexample for C7: the two iteration orders of the same two-deal
snapshot — the deals share the full sort key, since "7" and "07" both
parse to 7 — produce the same GlobalTotals but per-participant deal
lists in different orders, so the engine is not deterministic in the
iteration order of the input collection. -/
theorem C7_iteration_order_counterexample :
    [dealS7, dealS07].Perm [dealS07, dealS7]
    ∧ (rollup envW [dealS7, dealS07]).grandTotals =
        (rollup envW [dealS07, dealS7]).grandTotals
    ∧ (rollup envW [dealS7, dealS07]).projDealLists ≠
        (rollup envW [dealS07, dealS7]).projDealLists := by
  decide

/-- C7 (amended): when no two live deals share the full sort key
(sector start, proposal start, parsed id), the whole output is
independent of input iteration order: any two permutations of the
snapshot produce identical GlobalTotals, statistics and deal lists. -/
theorem C7_deterministic_given_distinct_keys (env : Env)
    (l1 l2 : List (String × MarketDeal)) (hperm : l1.Perm l2)
    (hkeys : (l1.filter (isLiveB env)).Pairwise (fun a b => dealKey a ≠ dealKey b)) :
    rollup env l1 = rollup env l2 := by
  have hfp : (l1.filter (isLiveB env)).Perm (l2.filter (isLiveB env)) :=
    hperm.filter _
  have hinj : ∀ a ∈ l1.filter (isLiveB env), ∀ b ∈ l1.filter (isLiveB env),
      dealKey a = dealKey b → a = b := by
    intro a ha b hb hk
    by_contra hne
    refine List.Pairwise.forall ?_ hkeys ha hb hne hk
    intro x y hxy hyx
    exact hxy hyx.symm
  have hord : orderedDeals env l1 = orderedDeals env l2 := by
    unfold orderedDeals
    apply sorted_perm_eq (r := dealLE)
    · exact (List.perm_insertionSort _ _).trans
        (hfp.trans (List.perm_insertionSort dealLE _).symm)
    · exact List.sorted_insertionSort _ _
    · exact List.sorted_insertionSort _ _
    · intro a ha b hb hab hba
      have ha2 : a ∈ l1.filter (isLiveB env) := (List.mem_insertionSort _).1 ha
      have hb2 : b ∈ l1.filter (isLiveB env) := (List.mem_insertionSort _).1 hb
      exact hinj a ha2 b hb2 (tripleLE_antisymm hab hba)
  unfold rollup accumState
  rw [hord]

/-- Witness for C7 (amended): two iteration orders of a snapshot with
distinct numeric ids produce identical outputs. -/
theorem C7_deterministic_given_distinct_keys_witness :
    rollup envW [dealW, dealS7] = rollup envW [dealS7, dealW] :=
  C7_deterministic_given_distinct_keys envW [dealW, dealS7] [dealS7, dealW]
    (by decide) (by decide)

/-! ### C3: the emission sort and (non-)stability

The emission sort is `sort.Slice(dl, func(i, j) ...)` — not
`sort.SliceStable` — so the code guarantees only `sortSliceSpec`:
a permutation of the accumulated list, sorted descending by piece size.
Relative order of equal-size deals is *not* guaranteed. -/

/-- The deal list accumulated for "proj" from the two equal-size deals
"7" and "07" (classification order keeps "7" first). -/
def dlC3 : List individualDeal :=
  (mapLookup (accumState envW [dealS7, dealS07]).projDealLists "proj").getD []

/-- The `individualDeal` produced for deal id "7". -/
def indivA : individualDeal :=
  { ProjectID := "proj", Client := "w", DealID := "7", DealStartEpoch := 100,
    MinerID := "m", PayloadCID := "unknown", PaddedSize := 64 }

/-- The `individualDeal` produced for deal id "07". -/
def indivB : individualDeal :=
  { ProjectID := "proj", Client := "w", DealID := "07", DealStartEpoch := 100,
    MinerID := "m", PayloadCID := "unknown", PaddedSize := 64 }

/-- Counterexample for C3: on the accumulated list `dlC3 = [indivA,
indivB]` of two equal-size deals, the reversed list `[indivB, indivA]`
satisfies everything the source's `sort.Slice` call guarantees, yet
reverses the relative order of the equal-size pair — so the emission
sort does not guarantee that ties keep their accumulated order (the
source uses the unstable `sort.Slice`, not `sort.SliceStable`). -/
theorem C3_stability_counterexample :
    dlC3 = [indivA, indivB]
    ∧ indivA.PaddedSize = indivB.PaddedSize
    ∧ sortSliceSpec sizeGE dlC3 [indivB, indivA]
    ∧ ¬ (∀ out : List individualDeal, sortSliceSpec sizeGE dlC3 out →
          ∀ a b : individualDeal, a.PaddedSize = b.PaddedSize →
            List.Sublist [a, b] dlC3 → List.Sublist [a, b] out) := by
  refine ⟨by decide, by decide, ⟨by decide, by decide⟩, ?_⟩
  intro hstable
  have hrev := hstable [indivB, indivA] ⟨by decide, by decide⟩ indivA indivB
    (by decide) (by decide)
  exact absurd hrev (by decide)

/-- C3 (amended): each participant's emitted deal list is the
accumulated list re-sorted by descending piece size only — a permutation
of the accumulated list, sorted with respect to `sizeGE` — with no
guarantee on the relative order of equal piece sizes. -/
theorem C3_emission_sorted_descending (env : Env) (l : List (String × MarketDeal))
    (p : String) (dl : List individualDeal)
    (h : mapLookup (rollup env l).projDealLists p = some dl) :
    sortSliceSpec sizeGE ((mapLookup (accumState env l).projDealLists p).getD []) dl := by
  unfold rollup at h
  dsimp only at h
  rw [mapLookup_map] at h
  cases hm : mapLookup (accumState env l).projDealLists p with
  | none => rw [hm] at h; exact absurd h (by simp)
  | some dl0 =>
    rw [hm] at h
    have hd : dl = List.insertionSort sizeGE dl0 := (Option.some.inj h).symm
    subst hd
    exact ⟨List.perm_insertionSort _ _, List.sorted_insertionSort _ _⟩

/-- Witness for C3 (amended) on a one-deal run. -/
theorem C3_emission_sorted_descending_witness :
    sortSliceSpec sizeGE
      ((mapLookup (accumState envW [dealW]).projDealLists "proj").getD [])
      ((mapLookup (rollup envW [dealW]).projDealLists "proj").getD []) :=
  C3_emission_sorted_descending envW [dealW] "proj" _ rfl

/-! ### C10: the per-run per-piece-cid counter never exceeds 9 -/

/-- Invariant of one participant's statistics during the pass: the
per-run counter for every piece cid is bounded by the all-time tally and
by 9, and the maximum field is still its initial 0 (it is only filled at
finalization). -/
def projInv (en : projectAggregateStats) : Prop :=
  (∀ c : String,
    lookupD en.timesSeenPieceCid c 0 ≤ lookupD en.timesSeenPieceCidAllTime c 0)
  ∧ (∀ q ∈ en.timesSeenPieceCid, q.2 ≤ 9)
  ∧ en.HighestCidDealCount = 0

/-- `projInv` for every participant present in the state. -/
def Inv (s : RollupState) : Prop :=
  ∀ p en, mapLookup s.projStats p = some en → projInv en

theorem projInv_fresh (p : String) : projInv (freshProjStats p) := by
  refine ⟨fun c => ?_, fun q hq => ?_, rfl⟩
  · simp [freshProjStats, lookupD, mapLookup]
  · simp [freshProjStats] at hq

theorem projInv_entry0 {s : RollupState} (h : Inv s) (p : String) :
    projInv ((mapLookup s.projStats p).getD (freshProjStats p)) := by
  cases hm : mapLookup s.projStats p with
  | none => exact projInv_fresh p
  | some en => exact h p en hm

/-- Bumping only the all-time tally preserves `projInv`. -/
theorem projInv_bump_allTime {en : projectAggregateStats} (cid : String)
    (h : projInv en) {en2 : projectAggregateStats}
    (ht : en2.timesSeenPieceCid = en.timesSeenPieceCid)
    (ha : en2.timesSeenPieceCidAllTime = bump en.timesSeenPieceCidAllTime cid)
    (hh : en2.HighestCidDealCount = en.HighestCidDealCount) :
    projInv en2 := by
  obtain ⟨hc, he, hz⟩ := h
  refine ⟨fun cc => ?_, ?_, by rw [hh, hz]⟩
  · rw [ht, ha]
    by_cases hcc : cc = cid
    · subst hcc
      rw [lookupD_bump_self]
      have := hc cc
      omega
    · rw [lookupD_bump_ne _ hcc]
      exact hc cc
  · rw [ht]
    exact he

/-- A counted deal bumps both counters; the cap hypothesis keeps the
per-run counter at most 9. -/
theorem projInv_counted {en : projectAggregateStats} (cid : String)
    (h : projInv en)
    (h9 : lookupD en.timesSeenPieceCidAllTime cid 0 + 1 ≤ 9)
    {en2 : projectAggregateStats}
    (ht : en2.timesSeenPieceCid = bump en.timesSeenPieceCid cid)
    (ha : en2.timesSeenPieceCidAllTime = bump en.timesSeenPieceCidAllTime cid)
    (hh : en2.HighestCidDealCount = en.HighestCidDealCount) :
    projInv en2 := by
  obtain ⟨hc, he, hz⟩ := h
  refine ⟨fun cc => ?_, fun q hq => ?_, by rw [hh, hz]⟩
  · rw [ht, ha]
    by_cases hcc : cc = cid
    · subst hcc
      rw [lookupD_bump_self, lookupD_bump_self]
      have := hc cc
      omega
    · rw [lookupD_bump_ne _ hcc, lookupD_bump_ne _ hcc]
      exact hc cc
  · rw [ht] at hq
    rcases mem_bump hq with hin | heq
    · exact he q hin
    · rw [heq]
      have := hc cid
      dsimp only
      omega

/-- Writing one `projInv`-entry back into a `Inv`-state keeps `Inv`. -/
theorem Inv_mapInsert {s : RollupState} (h : Inv s) (p : String)
    {en1 : projectAggregateStats} (hp : projInv en1)
    {s2 : RollupState} (hs : s2.projStats = mapInsert s.projStats p en1) :
    Inv s2 := by
  intro q en hq
  rw [hs] at hq
  by_cases hqp : q = p
  · subst hqp
    rw [mapLookup_mapInsert_self] at hq
    have hen := (Option.some.inj hq).symm
    subst hen
    exact hp
  · rw [mapLookup_mapInsert_ne _ _ hqp] at hq
    exact h q en hq

theorem classifyStep_Inv (env : Env) (s : RollupState) (e : String × MarketDeal)
    (c p : String) (h : Inv s) : Inv (classifyStep env s e c p) := by
  have h0 := projInv_entry0 h p
  unfold classifyStep
  dsimp only
  split_ifs with h1 h2 h3 h4
  · refine Inv_mapInsert h p ?_ rfl
    exact projInv_bump_allTime e.2.Proposal.PieceCID h0 rfl rfl rfl
  · refine Inv_mapInsert h p ?_ rfl
    exact projInv_bump_allTime e.2.Proposal.PieceCID h0 rfl rfl rfl
  · refine Inv_mapInsert h p ?_ rfl
    exact projInv_bump_allTime e.2.Proposal.PieceCID h0 rfl rfl rfl
  · have h9 : lookupD ((mapLookup s.projStats p).getD
        (freshProjStats p)).timesSeenPieceCidAllTime e.2.Proposal.PieceCID 0 + 1 ≤ 9 := by
      have hb := lookupD_bump_self
        (((mapLookup s.projStats p).getD (freshProjStats p)).timesSeenPieceCidAllTime)
        e.2.Proposal.PieceCID
      omega
    refine Inv_mapInsert h p ?_ rfl
    exact projInv_counted e.2.Proposal.PieceCID h0 h9 rfl rfl rfl
  · have h9 : lookupD ((mapLookup s.projStats p).getD
        (freshProjStats p)).timesSeenPieceCidAllTime e.2.Proposal.PieceCID 0 + 1 ≤ 9 := by
      have hb := lookupD_bump_self
        (((mapLookup s.projStats p).getD (freshProjStats p)).timesSeenPieceCidAllTime)
        e.2.Proposal.PieceCID
      omega
    refine Inv_mapInsert h p ?_ rfl
    exact projInv_counted e.2.Proposal.PieceCID h0 h9 rfl rfl rfl

theorem processDeal_Inv (env : Env) (s : RollupState) (e : String × MarketDeal)
    (h : Inv s) : Inv (processDeal env s e) := by
  unfold processDeal
  cases hres : env.resolveWallet e.2.Proposal.Client with
  | none => exact h
  | some w =>
    dsimp only
    have hs1 : Inv (recoveryStep env s e w) := by
      intro q en hq
      rw [recoveryStep_projStats] at hq
      exact h q en hq
    split_ifs with hex
    · exact hs1
    · cases hm : mapLookup env.knownAddrMap w with
      | none => exact hs1
      | some projID => exact classifyStep_Inv env _ e w projID hs1

theorem accumState_Inv (env : Env) (l : List (String × MarketDeal)) :
    Inv (accumState env l) := by
  have hstep : ∀ (ds : List (String × MarketDeal)) (s : RollupState), Inv s →
      Inv (ds.foldl (processDeal env) s) := by
    intro ds
    induction ds with
    | nil => intro s hs; exact hs
    | cons e rest ih => intro s hs; exact ih _ (processDeal_Inv env s e hs)
  have hinit : Inv initState := fun p en hq => Option.noConfusion hq
  exact hstep _ initState hinit

/-- C10: after finalization, every per-run same-piece-cid counted-deals
entry of every participant is at most 9, and therefore the reported
`max_same_cid_deals` (`HighestCidDealCount`) is at most 9: a counted deal
requires its freshly incremented all-time tally to stay below 10, and the
per-run counter never exceeds the all-time tally. -/
theorem C10_per_cid_count_at_most_nine (env : Env) (l : List (String × MarketDeal))
    (p : String) (en : projectAggregateStats)
    (h : mapLookup (rollup env l).projStats p = some en) :
    (∀ q ∈ en.timesSeenPieceCid, q.2 ≤ 9) ∧ en.HighestCidDealCount ≤ 9 := by
  unfold rollup at h
  dsimp only at h
  rw [mapLookup_map] at h
  cases hm : mapLookup (accumState env l).projStats p with
  | none => rw [hm] at h; exact absurd h (by simp)
  | some en0 =>
    rw [hm] at h
    have hen : en = finalizeProj en0 := (Option.some.inj h).symm
    obtain ⟨hc, he, hz⟩ := accumState_Inv env l p en0 hm
    subst hen
    constructor
    · intro q hq
      exact he q hq
    · show (finalizeProj en0).HighestCidDealCount ≤ 9
      have : (finalizeProj en0).HighestCidDealCount =
          en0.timesSeenPieceCid.foldl (fun acc q => if acc < q.2 then q.2 else acc)
            en0.HighestCidDealCount := rfl
      rw [this]
      exact foldl_max_le (by omega) he

/-- Witness for C10 on a one-deal run. -/
theorem C10_per_cid_count_at_most_nine_witness :
    (∀ q ∈ ((mapLookup (rollup envW [dealW]).projStats "proj").getD
        (freshProjStats "proj")).timesSeenPieceCid, q.2 ≤ 9)
    ∧ ((mapLookup (rollup envW [dealW]).projStats "proj").getD
        (freshProjStats "proj")).HighestCidDealCount ≤ 9 :=
  C10_per_cid_count_at_most_nine envW [dealW] "proj" _ rfl

end SlingshotStats
